import Mathlib

/-!
Shallow embedding of `Helpers.py` from the tf-rpn repository: Pascal VOC
dataset indexing, annotation parsing, and image/bounding-box geometry
helpers, together with proofs of the specified properties.

Modelling conventions:
* Python strings are Lean `String`s; Python string comparison (used by
  `sorted`) is lexicographic comparison of the underlying code-point lists,
  embedded via `String.data`.
* The filesystem is an explicit environment: a total function from a list
  file path to its parsed lines, and from an annotation file path to its
  parsed XML record.  `assert` failures and uncaught exceptions are
  `Except`/`Option` errors.
* numpy arrays are nested lists: an image is a list of rows, a row a list
  of pixels, a pixel a list of channel values.
* Python/numpy float arithmetic is modelled exactly over `ℚ`; both
  `round` (Python) and `np.round` round halves to the nearest even
  integer, embedded as `roundHalfEven`.
-/

/-- Lexicographic order on strings by code points, as Python compares
strings (`a <= b` in Python). -/
def strLe (a b : String) : Bool := decide (a.data ≤ b.data)

/-- Insert into a sorted list (helper for the embedding of Python's
`sorted`). -/
def insertSorted (x : String) : List String → List String
  | [] => [x]
  | y :: ys => if strLe x y then x :: y :: ys else y :: insertSorted x ys

/-- Embedding of Python's `sorted` on lists of strings (insertion sort;
agrees with Python's stable ascending sort). -/
def pySorted (l : List String) : List String := l.foldr insertSorted []

/-- `VOC["person"]` from Helpers.py. -/
def VOC_person : List String := ["person"]

/-- `VOC["animals"]` from Helpers.py. -/
def VOC_animals : List String := ["bird", "cat", "cow", "dog", "horse", "sheep"]

/-- `VOC["vehicles"]` from Helpers.py. -/
def VOC_vehicles : List String := ["aeroplane", "bicycle", "boat", "bus", "car", "motorbike", "train"]

/-- `VOC["indoors"]` from Helpers.py. -/
def VOC_indoors : List String := ["bottle", "chair", "diningtable", "pottedplant", "sofa", "tvmonitor"]

/-- `VOC["datatypes"]` from Helpers.py. -/
def VOC_datatypes : List String := ["train", "val", "trainval", "test"]

/-- `VOC["classes"] = sorted(person + animals + vehicles + indoors)` from
Helpers.py. -/
def VOC_classes : List String :=
  pySorted (VOC_person ++ VOC_animals ++ VOC_vehicles ++ VOC_indoors)

/-- One `<object>` element of a Pascal VOC annotation XML: class name and
the four `bndbox` integers. -/
structure VOCObject where
  name : String
  xmin : ℤ
  ymin : ℤ
  xmax : ℤ
  ymax : ℤ
deriving DecidableEq, Inhabited

/-- A parsed Pascal VOC annotation XML file: `filename`, the `size`
element, and the `object` elements in document order. -/
structure VOCXml where
  filename : String
  width : ℤ
  height : ℤ
  depth : ℤ
  objects : List VOCObject
deriving DecidableEq, Inhabited

/-- One entry of the `gt_boxes` list built by the annotation handler. -/
structure GTBox where
  id : ℕ
  name : String
  bbox : List ℤ
deriving DecidableEq, Inhabited

/-- The dictionary returned by the annotation handler. -/
structure AnnotationData where
  filename : String
  width : ℤ
  height : ℤ
  depth : ℤ
  gt_boxes : List GTBox
deriving DecidableEq, Inhabited

/-- Embedding of Python's `list.index`: index of the first occurrence,
`none` when absent (Python raises `ValueError`). -/
def pyIndex (l : List String) (x : String) : Option ℕ :=
  match l with
  | [] => none
  | y :: ys => if y = x then some 0 else (pyIndex ys x).map (· + 1)

/-- The `gt_boxes` loop of `handle_pascal_VOC_annotation`: keep objects
whose name is in `classes`, with id `VOC["classes"].index(name)`; `none`
models the `ValueError` Python raises when the name is not in the
vocabulary. -/
def handle_gt_boxes (classes : List String) : List VOCObject → Option (List GTBox)
  | [] => some []
  | o :: os =>
    if o.name ∈ classes then
      match pyIndex VOC_classes o.name with
      | none => none
      | some i =>
        match handle_gt_boxes classes os with
        | none => none
        | some rest =>
          some ({ id := i, name := o.name, bbox := [o.xmin, o.ymin, o.xmax, o.ymax] } :: rest)
    else handle_gt_boxes classes os

/-- Embedding of `handle_pascal_VOC_annotation` (Helpers.py lines 50-76),
applied to an already-parsed XML record. -/
def handle_pascal_VOC_annotation (xml : VOCXml) (classes : List String) :
    Option AnnotationData :=
  match handle_gt_boxes classes xml.objects with
  | none => none
  | some gt =>
    some { filename := xml.filename, width := xml.width, height := xml.height,
           depth := xml.depth, gt_boxes := gt }

/-- Embedding of `os.path.join` on two components (POSIX separator). -/
def pathJoin (a b : String) : String := a ++ "/" ++ b

/-- `main_path` of `get_pascal_VOC_data`. -/
def VOC_main_path : String := pathJoin (pathJoin "data" "VOCdevkit") "VOC2007"

/-- `images_path` of `get_pascal_VOC_data`. -/
def VOC_images_path : String := pathJoin VOC_main_path "JPEGImages"

/-- `annotations_path` of `get_pascal_VOC_data`. -/
def VOC_annotations_path : String := pathJoin VOC_main_path "Annotations"

/-- `classes_path` of `get_pascal_VOC_data`. -/
def VOC_classes_path : String := pathJoin (pathJoin VOC_main_path "ImageSets") "Main"

/-- The per-class per-split list file path `<class>_<datatype>.txt` under
`ImageSets/Main`. -/
def listFilePath (classname datatype : String) : String :=
  pathJoin VOC_classes_path (classname ++ "_" ++ datatype ++ ".txt")

/-- Failures of the indexer: a failed `assert`, or the `ValueError` from
`list.index`. -/
inductive VOCError where
  | assertionError
  | valueError
deriving DecidableEq

/-- The inner line loop of `get_pascal_VOC_data`: append each filename
whose difficulty flag is `> -1` and which is not already collected.  A
line `<filename> <flag>` is modelled as the pair `(filename, flag)`. -/
def scan_lines (lines : List (String × ℤ)) (filenames : List String) : List String :=
  match lines with
  | [] => filenames
  | (fn, flag) :: rest =>
    scan_lines rest (if flag > -1 ∧ fn ∉ filenames then filenames ++ [fn] else filenames)

/-- The class loop of `get_pascal_VOC_data`, with the `assert classname in
VOC["classes"]` check.  `listFiles` is the filesystem environment giving
the parsed lines of each list file. -/
def collect_filenames (datatype : String) (listFiles : String → List (String × ℤ)) :
    List String → List String → Except VOCError (List String)
  | [], acc => Except.ok acc
  | c :: cs, acc =>
    if c ∈ VOC_classes then
      collect_filenames datatype listFiles cs
        (scan_lines (listFiles (listFilePath c datatype)) acc)
    else Except.error VOCError.assertionError

/-- The class loop of `get_pascal_VOC_data` without the assertion checks
(its value when every assertion passes). -/
def collected (datatype : String) (listFiles : String → List (String × ℤ)) :
    List String → List String → List String
  | [], acc => acc
  | c :: cs, acc =>
    collected datatype listFiles cs (scan_lines (listFiles (listFilePath c datatype)) acc)

/-- One record of the dataset returned by `get_pascal_VOC_data`: the
parsed annotation data plus the resolved `image_path`. -/
structure DatasetEntry where
  data : AnnotationData
  image_path : String
deriving DecidableEq, Inhabited

/-- The dataset loop of `get_pascal_VOC_data`: parse each collected
filename's annotation file and attach the image path.  `annots` is the
filesystem environment giving the parsed XML of each annotation path. -/
def build_dataset (classes : List String) (annots : String → VOCXml) :
    List String → Except VOCError (List DatasetEntry)
  | [] => Except.ok []
  | fn :: rest =>
    match handle_pascal_VOC_annotation
        (annots (pathJoin VOC_annotations_path (fn ++ ".xml"))) classes with
    | none => Except.error VOCError.valueError
    | some d =>
      match build_dataset classes annots rest with
      | Except.error e => Except.error e
      | Except.ok ds =>
        Except.ok ({ data := d, image_path := pathJoin VOC_images_path d.filename } :: ds)

/-- Embedding of `get_pascal_VOC_data` (Helpers.py lines 23-48) with the
filesystem as explicit total environments. -/
def get_pascal_VOC_data (datatype : String) (classes : List String)
    (listFiles : String → List (String × ℤ)) (annots : String → VOCXml) :
    Except VOCError (List DatasetEntry) :=
  if datatype ∈ VOC_datatypes then
    match collect_filenames datatype listFiles classes [] with
    | Except.error e => Except.error e
    | Except.ok fns => build_dataset classes annots fns
  else Except.error VOCError.assertionError

/-- Sanity: the sorted 20-class vocabulary, exactly as Python's `sorted`
produces it. -/
theorem VOC_classes_eq :
    VOC_classes = ["aeroplane", "bicycle", "bird", "boat", "bottle", "bus", "car", "cat",
      "chair", "cow", "diningtable", "dog", "horse", "motorbike", "person", "pottedplant",
      "sheep", "sofa", "train", "tvmonitor"] := by decide

/-- A pixel: the list of its channel values. -/
abbrev Pixel := List ℕ

/-- A numpy image array: rows of pixels. -/
abbrev ImageArray := List (List Pixel)

/-- `img.shape[1]` of a nested-list image (the common length of its
rows). -/
def imgWidth (img : ImageArray) : ℕ := (img.headD []).length

/-- `img.shape[2]` of a nested-list image (the common length of its
pixels). -/
def imgChannels (img : ImageArray) : ℕ := ((img.headD []).headD []).length

/-- `img` has numpy shape `(h, w, c)`. -/
def WellFormedImg (img : ImageArray) (h w c : ℕ) : Prop :=
  img.length = h ∧ imgWidth img = w ∧ imgChannels img = c ∧
    ∀ row ∈ img, row.length = w ∧ ∀ px ∈ row, px.length = c

instance (img : ImageArray) (h w c : ℕ) : Decidable (WellFormedImg img h w c) := by
  unfold WellFormedImg; infer_instance

/-- Round half to even, the rounding of Python's `round` and numpy's
`np.round` (float arithmetic modelled exactly over `ℚ`). -/
def roundHalfEven (q : ℚ) : ℤ :=
  if q - ⌊q⌋ < 1/2 then ⌊q⌋
  else if 1/2 < q - ⌊q⌋ then ⌊q⌋ + 1
  else if ⌊q⌋ % 2 = 0 then ⌊q⌋ else ⌊q⌋ + 1

/-- Embedding of `bbox_handler` (Helpers.py lines 95-102): boxes given as
`[y_min, x_min, y_max, x_max]` fractions are mapped to rounded pixel
`[x_min, y_min, x_max, y_max]` tuples using the image's height and
width. -/
def bbox_handler (img : ImageArray) (bboxes : List (ℚ × ℚ × ℚ × ℚ)) :
    List (ℤ × ℤ × ℤ × ℤ) :=
  let height := img.length
  let width := imgWidth img
  bboxes.map fun b =>
    (roundHalfEven (b.2.1 * width), roundHalfEven (b.1 * height),
     roundHalfEven (b.2.2.2 * width), roundHalfEven (b.2.2.1 * height))

/-- The image-boundaries dictionary of `get_image_boundaries`. -/
structure ImgBoundaries where
  top : ℕ
  left : ℕ
  right : ℕ
  bottom : ℕ
deriving DecidableEq, Inhabited

/-- The padding dictionary of `get_padded_img`. -/
structure Padding where
  top : ℕ
  bottom : ℕ
  left : ℕ
  right : ℕ
deriving DecidableEq, Inhabited

/-- Embedding of `get_image_boundaries` (Helpers.py lines 104-111). -/
def get_image_boundaries (img : ImageArray) : ImgBoundaries :=
  { top := 0, left := 0, right := imgWidth img, bottom := img.length }

/-- Embedding of `update_image_boundaries_with_padding` (Helpers.py lines
113-118).  The Python function assigns into the dictionary it was passed
and returns that same dictionary, so the embedding returns the pair
(state of the caller's dictionary after the call, returned value),
tracking the field assignments line by line. -/
def update_image_boundaries_with_padding (img_boundaries : ImgBoundaries)
    (padding : Padding) : ImgBoundaries × ImgBoundaries :=
  let b1 : ImgBoundaries := { img_boundaries with top := padding.top }
  let b2 : ImgBoundaries := { b1 with left := padding.left }
  let b3 : ImgBoundaries := { b2 with bottom := b2.bottom + padding.top }
  let b4 : ImgBoundaries := { b3 with right := b3.right + padding.left }
  (b4, b4)

/-- Embedding of `get_model_path` (Helpers.py lines 126-131).  The
directory side effect is tracked explicitly: the input is whether
`models` exists beforehand, the first output whether it exists after
(`os.makedirs` when absent). -/
def get_model_path (stride : ℕ) (models_dir_exists : Bool) : Bool × String :=
  let dir_exists := if models_dir_exists then models_dir_exists else true
  (dir_exists, pathJoin "models" ("stride_" ++ toString stride ++ "_rpn_model_weights.h5"))

/-- Modelled from the spec: the weights path convention
`models/<optional-stride->rpn_model_weights.h5` (the middle part is empty
or names the stride). -/
def model_path_convention (stride : ℕ) (path : String) : Prop :=
  ∃ mid : String, path = pathJoin "models" (mid ++ "rpn_model_weights.h5") ∧
    (mid = "" ∨ mid = "stride_" ++ toString stride ++ "_")

/-- Embedding of `resize_image` (Helpers.py lines 159-170) acting on the
image's `(width, height)` size, the only data the geometry touches;
returns the size of the resized image. -/
def resize_image (width height : ℕ) (max_allowed_size : ℕ) : ℕ × ℕ :=
  let max_image_size := max height width
  if max_allowed_size < max_image_size then
    if width < height then
      let new_height := max_allowed_size
      let new_width := (roundHalfEven ((new_height : ℚ) * ((width : ℚ) / (height : ℚ)))).toNat
      (new_width, new_height)
    else
      let new_width := max_allowed_size
      let new_height := (roundHalfEven ((new_width : ℚ) * ((height : ℚ) / (width : ℚ)))).toNat
      (new_width, new_height)
  else (width, height)

/-- The all-zero pixel with `c` channels (`np.pad` constant fill). -/
def zeroPixel (c : ℕ) : Pixel := List.replicate c 0

/-- One row padded with `left`/`right` zero pixels (`np.pad` on axis 1). -/
def padRowLR (left right c : ℕ) (row : List Pixel) : List Pixel :=
  List.replicate left (zeroPixel c) ++ row ++ List.replicate right (zeroPixel c)

/-- `n` all-zero rows of width `w` (`np.pad` on axis 0). -/
def blankRows (n w c : ℕ) : ImageArray :=
  List.replicate n (List.replicate w (zeroPixel c))

/-- `np.pad(img, ((top, bottom), (left, right), (0, 0)), mode='constant')`
for an image of width `w` with `c` channels. -/
def np_pad (img : ImageArray) (top bottom left right w c : ℕ) : ImageArray :=
  blankRows top (left + w + right) c ++ img.map (padRowLR left right c) ++
    blankRows bottom (left + w + right) c

/-- Embedding of `get_padded_img` (Helpers.py lines 182-198); `none`
models the two `assert` failures. -/
def get_padded_img (img : ImageArray) (max_height max_width : ℕ) :
    Option (ImageArray × Padding) :=
  let height := img.length
  let width := imgWidth img
  if height ≤ max_height ∧ width ≤ max_width then
    let padding_height := max_height - height
    let padding_width := max_width - width
    let top := padding_height / 2
    let bottom := padding_height - top
    let left := padding_width / 2
    let right := padding_width - left
    some (np_pad img top bottom left right width (imgChannels img),
      { top := top, bottom := bottom, left := left, right := right })
  else none

/-- The crop inverse to `get_padded_img`: take `h` rows from `top` and
`w` pixels from `left` in each row. -/
def crop_img (a : ImageArray) (top left h w : ℕ) : ImageArray :=
  ((a.drop top).take h).map fun row => (row.drop left).take w

/-- The maximum of a list of naturals (`foldr`, 0 on the empty list). -/
def maxList (l : List ℕ) : ℕ := l.foldr max 0

/-- `np.argmax`: index of the first occurrence of the maximum (0 on the
empty list, where numpy raises). -/
def np_argmax : List ℕ → ℕ
  | [] => 0
  | x :: xs => if maxList xs ≤ x then 0 else np_argmax xs + 1

/-- Embedding of `calculate_max_height_width` (Helpers.py lines 201-207):
per-column `argmax` over the `(height, width)` table, then the entries at
those row indices. -/
def calculate_max_height_width (imgs : List ImageArray) : ℕ × ℕ :=
  let hs := imgs.map List.length
  let ws := imgs.map imgWidth
  (hs.getD (np_argmax hs) 0, ws.getD (np_argmax ws) 0)

/-! ### Properties of `roundHalfEven` -/

theorem roundHalfEven_le (q : ℚ) (n : ℤ) (h : q ≤ (n : ℚ)) : roundHalfEven q ≤ n := by
  have hfl : (⌊q⌋ : ℚ) ≤ q := Int.floor_le q
  have hfl' : ⌊q⌋ ≤ n := by
    have := Int.floor_le_floor h
    simpa using this
  unfold roundHalfEven
  split_ifs with h1 h2 h3
  · exact hfl'
  · -- fractional part exceeds 1/2, so q is strictly above ⌊q⌋ + 1/2
    have : (⌊q⌋ : ℚ) + 1/2 < q := by linarith
    have hlt : (⌊q⌋ : ℚ) < (n : ℚ) := by linarith
    have : ⌊q⌋ < n := by exact_mod_cast hlt
    omega
  · exact hfl'
  · -- fractional part is exactly 1/2
    have hq : q = (⌊q⌋ : ℚ) + 1/2 := by linarith
    have hlt : (⌊q⌋ : ℚ) < (n : ℚ) := by
      rw [hq] at h; linarith
    have : ⌊q⌋ < n := by exact_mod_cast hlt
    omega

theorem roundHalfEven_gt (q : ℚ) (n : ℤ) (h : (n : ℚ) + 1/2 < q) : n < roundHalfEven q := by
  have hfl : q < (⌊q⌋ : ℚ) + 1 := Int.lt_floor_add_one q
  unfold roundHalfEven
  split_ifs with h1 h2 h3
  · -- fractional part below 1/2: q < ⌊q⌋ + 1/2
    have : (n : ℚ) < (⌊q⌋ : ℚ) := by linarith
    exact_mod_cast this
  · have : (n : ℚ) < (⌊q⌋ : ℚ) + 1 := by linarith
    exact_mod_cast this
  · -- fractional part exactly 1/2 and ⌊q⌋ even
    have hq : q = (⌊q⌋ : ℚ) + 1/2 := by linarith
    have : (n : ℚ) < (⌊q⌋ : ℚ) := by rw [hq] at h; linarith
    exact_mod_cast this
  · have : (n : ℚ) < (⌊q⌋ : ℚ) + 1 := by linarith
    exact_mod_cast this

theorem roundHalfEven_nonneg (q : ℚ) (h : 0 ≤ q) : 0 ≤ roundHalfEven q := by
  have : 0 ≤ ⌊q⌋ := Int.floor_nonneg.mpr h
  unfold roundHalfEven
  split_ifs <;> omega

/-! ### C8: boundary update mutates its input -/

/-- C8 counterexample: the claim says `update_image_boundaries_with_padding`
leaves its input boundary record unchanged, but the Python function assigns
into the dictionary it was passed: after the call the caller's record
differs from its original value. -/
theorem C8_counterexample_update_leaves_input_changed :
    (update_image_boundaries_with_padding
        { top := 0, left := 0, right := 4, bottom := 3 }
        { top := 1, bottom := 1, left := 2, right := 2 }).1 ≠
      { top := 0, left := 0, right := 4, bottom := 3 } := by decide

/-- C8 (amended): `update_image_boundaries_with_padding` mutates its input
record in place — after the call the input has top and left set to the
padding's top and left and bottom and right increased by the padding's top
and left respectively — and returns that same mutated record rather than a
new one. -/
theorem C8_amended_update_mutates_in_place (b : ImgBoundaries) (p : Padding) :
    (update_image_boundaries_with_padding b p).1 =
      { top := p.top, left := p.left, right := b.right + p.left,
        bottom := b.bottom + p.top } ∧
    (update_image_boundaries_with_padding b p).2 =
      (update_image_boundaries_with_padding b p).1 :=
  ⟨rfl, rfl⟩

/-! ### C9: model weights path -/

/-- C9: for every stride, `get_model_path` returns a path matching the
convention `models/<optional-stride->rpn_model_weights.h5`, and the
`models` directory exists afterwards (created when absent). -/
theorem C9_model_path_convention (stride : ℕ) (models_dir_exists : Bool) :
    (get_model_path stride models_dir_exists).1 = true ∧
    model_path_convention stride (get_model_path stride models_dir_exists).2 := by
  constructor
  · cases models_dir_exists <;> rfl
  · refine ⟨"stride_" ++ toString stride ++ "_", ?_, Or.inr rfl⟩
    show pathJoin "models" ("stride_" ++ toString stride ++ "_rpn_model_weights.h5") = _
    have h1 : ("_" ++ "rpn_model_weights.h5" : String) = "_rpn_model_weights.h5" := by decide
    rw [String.append_assoc ("stride_" ++ toString stride) "_" "rpn_model_weights.h5", h1]

/-! ### C3: bounding-box coordinate conversion -/

/-- C3: `bbox_handler` maps each normalized `[y_min, x_min, y_max, x_max]`
box to pixel `[x_min, y_min, x_max, y_max]`, each coordinate the fraction
times the matching image dimension rounded to the nearest integer (halves
to even); the formula applies unconditionally — no clamping — so a
fractional `x_max` of at least 2 on a positive-width image yields a pixel
coordinate beyond the image width. -/
theorem C3_bbox_handler_swap_scale_round (img : ImageArray)
    (bboxes : List (ℚ × ℚ × ℚ × ℚ)) :
    (bbox_handler img bboxes).length = bboxes.length ∧
    (∀ k, k < bboxes.length → ∀ y0 x0 y1 x1 : ℚ,
      bboxes.getD k default = (y0, x0, y1, x1) →
      (bbox_handler img bboxes).getD k default =
        (roundHalfEven (x0 * (imgWidth img : ℚ)),
         roundHalfEven (y0 * (img.length : ℚ)),
         roundHalfEven (x1 * (imgWidth img : ℚ)),
         roundHalfEven (y1 * (img.length : ℚ)))) ∧
    (∀ k, k < bboxes.length → ∀ y0 x0 y1 x1 : ℚ,
      bboxes.getD k default = (y0, x0, y1, x1) →
      (2 : ℚ) ≤ x1 → 0 < imgWidth img →
      (imgWidth img : ℤ) < ((bbox_handler img bboxes).getD k default).2.2.1) := by
  have hlen : (bbox_handler img bboxes).length = bboxes.length := by
    simp [bbox_handler]
  have hmain : ∀ k, k < bboxes.length → ∀ y0 x0 y1 x1 : ℚ,
      bboxes.getD k default = (y0, x0, y1, x1) →
      (bbox_handler img bboxes).getD k default =
        (roundHalfEven (x0 * (imgWidth img : ℚ)),
         roundHalfEven (y0 * (img.length : ℚ)),
         roundHalfEven (x1 * (imgWidth img : ℚ)),
         roundHalfEven (y1 * (img.length : ℚ))) := by
    intro k hk y0 x0 y1 x1 heq
    have hk' : k < (bbox_handler img bboxes).length := by rw [hlen]; exact hk
    rw [List.getD_eq_getElem _ _ hk'] 
    rw [List.getD_eq_getElem _ _ hk] at heq
    simp only [bbox_handler, List.getElem_map, heq]
  refine ⟨hlen, hmain, ?_⟩
  intro k hk y0 x0 y1 x1 heq hx1 hwpos
  rw [hmain k hk y0 x0 y1 x1 heq]
  apply roundHalfEven_gt
  have hw1 : (1 : ℚ) ≤ (imgWidth img : ℚ) := by exact_mod_cast hwpos
  have : (imgWidth img : ℚ) + 1/2 < 2 * (imgWidth img : ℚ) := by linarith
  have h2 : 2 * (imgWidth img : ℚ) ≤ x1 * (imgWidth img : ℚ) := by
    apply mul_le_mul_of_nonneg_right hx1
    positivity
  push_cast
  linarith

/-- A 2-row, 3-column, 1-channel image used by concrete witnesses. -/
def imgW23 : ImageArray := [[[0], [0], [0]], [[0], [0], [0]]]

/-- C3 witness: at the concrete image `imgW23` (width 3) and the single box
`(0, 0, 0, 2)`, the theorem applies and its hypotheses hold. -/
theorem C3_bbox_handler_swap_scale_round_witness :
    (0 : ℕ) < 1 ∧
    ([((0 : ℚ), (0 : ℚ), (0 : ℚ), (2 : ℚ))].getD 0 default =
      ((0 : ℚ), (0 : ℚ), (0 : ℚ), (2 : ℚ))) ∧
    (2 : ℚ) ≤ 2 ∧ 0 < imgWidth imgW23 ∧
    (imgWidth imgW23 : ℤ) <
      ((bbox_handler imgW23 [((0 : ℚ), (0 : ℚ), (0 : ℚ), (2 : ℚ))]).getD 0 default).2.2.1 :=
  ⟨by decide, rfl, by decide, by decide,
    (C3_bbox_handler_swap_scale_round imgW23 [((0 : ℚ), (0 : ℚ), (0 : ℚ), (2 : ℚ))]).2.2
      0 (by decide) 0 0 0 2 rfl (by decide) (by decide)⟩

/-! ### C5: aspect-ratio-preserving resize -/

theorem resize_scaled_side (a b L : ℕ) (hba : b ≤ a) (ha : 0 < a) :
    (roundHalfEven ((L : ℚ) * ((b : ℚ) / (a : ℚ)))).toNat ≤ L ∧
    ((roundHalfEven ((L : ℚ) * ((b : ℚ) / (a : ℚ)))).toNat : ℤ) =
      roundHalfEven ((L : ℚ) * ((b : ℚ) / (a : ℚ))) := by
  have ha' : (0 : ℚ) < (a : ℚ) := by exact_mod_cast ha
  have hq0 : 0 ≤ (L : ℚ) * ((b : ℚ) / (a : ℚ)) := by positivity
  have hle : (L : ℚ) * ((b : ℚ) / (a : ℚ)) ≤ ((L : ℤ) : ℚ) := by
    push_cast
    apply mul_le_of_le_one_right (by positivity)
    rw [div_le_one ha']
    exact_mod_cast hba
  have h1 := roundHalfEven_le _ _ hle
  have h2 := roundHalfEven_nonneg _ hq0
  omega

/-- C5: when the larger side of the image already fits within the limit,
`resize_image` returns the size unchanged (never upscales); otherwise the
resized image's larger side equals the limit and the other side is the
limit scaled by the original aspect ratio, rounded to the nearest
integer. -/
theorem C5_resize_max_side (width height max_allowed_size : ℕ) :
    (max height width ≤ max_allowed_size →
      resize_image width height max_allowed_size = (width, height)) ∧
    (max_allowed_size < max height width →
      max (resize_image width height max_allowed_size).2
        (resize_image width height max_allowed_size).1 = max_allowed_size ∧
      (width < height →
        (resize_image width height max_allowed_size).2 = max_allowed_size ∧
        ((resize_image width height max_allowed_size).1 : ℤ) =
          roundHalfEven ((max_allowed_size : ℚ) * ((width : ℚ) / (height : ℚ)))) ∧
      (height ≤ width →
        (resize_image width height max_allowed_size).1 = max_allowed_size ∧
        ((resize_image width height max_allowed_size).2 : ℤ) =
          roundHalfEven ((max_allowed_size : ℚ) * ((height : ℚ) / (width : ℚ))))) := by
  constructor
  · intro h
    unfold resize_image
    rw [if_neg (by omega)]
  · intro h
    by_cases hwh : width < height
    · have hres : resize_image width height max_allowed_size =
          ((roundHalfEven ((max_allowed_size : ℚ) * ((width : ℚ) / (height : ℚ)))).toNat,
            max_allowed_size) := by
        unfold resize_image
        rw [if_pos h, if_pos hwh]
      have haux := resize_scaled_side height width max_allowed_size (by omega) (by omega)
      rw [hres]
      refine ⟨?_, fun _ => ⟨rfl, by simpa using haux.2⟩, fun hc => absurd hc (by omega)⟩
      simpa using haux.1
    · have hhw : height ≤ width := by omega
      have hres : resize_image width height max_allowed_size =
          (max_allowed_size,
            (roundHalfEven ((max_allowed_size : ℚ) * ((height : ℚ) / (width : ℚ)))).toNat) := by
        unfold resize_image
        rw [if_pos h, if_neg hwh]
      have hwpos : 0 < width := by omega
      have haux := resize_scaled_side width height max_allowed_size hhw hwpos
      rw [hres]
      refine ⟨?_, fun hc => absurd hc (by omega), fun _ => ⟨rfl, by simpa using haux.2⟩⟩
      simpa using haux.1

/-- C5 witness: a 400×300 image resized with limit 200 hits the resize
branch; the new width is the limit and the new height is 150. -/
theorem C5_resize_max_side_witness :
    (200 < max 300 400) ∧
    (max (resize_image 400 300 200).2 (resize_image 400 300 200).1 = 200 ∧
      (400 < 300 →
        (resize_image 400 300 200).2 = 200 ∧
        ((resize_image 400 300 200).1 : ℤ) =
          roundHalfEven ((200 : ℚ) * ((400 : ℚ) / (300 : ℚ)))) ∧
      (300 ≤ 400 →
        (resize_image 400 300 200).1 = 200 ∧
        ((resize_image 400 300 200).2 : ℤ) =
          roundHalfEven ((200 : ℚ) * ((300 : ℚ) / (400 : ℚ))))) :=
  ⟨by decide, (C5_resize_max_side 400 300 200).2 (by decide)⟩

/-! ### C6: batch maximum height and width -/

theorem le_maxList (l : List ℕ) (x : ℕ) (hx : x ∈ l) : x ≤ maxList l := by
  induction l with
  | nil => cases hx
  | cons a t ih =>
    rcases List.mem_cons.mp hx with h | h
    · subst h; exact le_max_left _ _
    · exact le_trans (ih h) (le_max_right _ _)

theorem maxList_mem (l : List ℕ) (h : l ≠ []) : maxList l ∈ l := by
  induction l with
  | nil => exact absurd rfl h
  | cons a t ih =>
    rcases eq_or_ne t [] with ht | ht
    · subst ht; simp [maxList]
    · by_cases hle : maxList t ≤ a
      · have : maxList (a :: t) = a := max_eq_left hle
        rw [this]; exact List.mem_cons_self a t
      · have hfold : maxList (a :: t) = max a (maxList t) := rfl
        have : maxList (a :: t) = maxList t := by
          rw [hfold]; exact max_eq_right (le_of_not_le hle)
        rw [this]; exact List.mem_cons_of_mem a (ih ht)

theorem getD_np_argmax (l : List ℕ) (h : l ≠ []) : l.getD (np_argmax l) 0 = maxList l := by
  induction l with
  | nil => exact absurd rfl h
  | cons a t ih =>
    unfold np_argmax
    by_cases hle : maxList t ≤ a
    · rw [if_pos hle]
      show a = maxList (a :: t)
      exact (max_eq_left hle).symm
    · rw [if_neg hle]
      have ht : t ≠ [] := by
        intro hnil
        subst hnil
        exact hle (Nat.zero_le a)
      have : (a :: t).getD (np_argmax t + 1) 0 = t.getD (np_argmax t) 0 := by
        simp [List.getD]
      have hfold : maxList (a :: t) = max a (maxList t) := rfl
      rw [this, ih ht, hfold]
      exact (max_eq_right (le_of_not_le hle)).symm

/-- C6: on a non-empty batch, `calculate_max_height_width` returns the
maximum height and the maximum width, each taken independently over the
batch (the two maxima are attained, possibly by different images). -/
theorem C6_max_height_width_independent (imgs : List ImageArray) (hne : imgs ≠ []) :
    (∀ img ∈ imgs, img.length ≤ (calculate_max_height_width imgs).1 ∧
      imgWidth img ≤ (calculate_max_height_width imgs).2) ∧
    (∃ imgH ∈ imgs, imgH.length = (calculate_max_height_width imgs).1) ∧
    (∃ imgV ∈ imgs, imgWidth imgV = (calculate_max_height_width imgs).2) := by
  have hh : imgs.map List.length ≠ [] := by simpa using hne
  have hw : imgs.map imgWidth ≠ [] := by simpa using hne
  have e1 : (calculate_max_height_width imgs).1 = maxList (imgs.map List.length) := by
    simp only [calculate_max_height_width]
    exact getD_np_argmax _ hh
  have e2 : (calculate_max_height_width imgs).2 = maxList (imgs.map imgWidth) := by
    simp only [calculate_max_height_width]
    exact getD_np_argmax _ hw
  refine ⟨?_, ?_, ?_⟩
  · intro img hmem
    rw [e1, e2]
    exact ⟨le_maxList _ _ (List.mem_map_of_mem _ hmem),
      le_maxList _ _ (List.mem_map_of_mem _ hmem)⟩
  · rw [e1]
    have := maxList_mem _ hh
    rcases List.mem_map.mp this with ⟨img, hmem, heq⟩
    exact ⟨img, hmem, heq⟩
  · rw [e2]
    have := maxList_mem _ hw
    rcases List.mem_map.mp this with ⟨img, hmem, heq⟩
    exact ⟨img, hmem, heq⟩

/-- A 3-row, 1-column, 1-channel image used by concrete witnesses. -/
def imgW31 : ImageArray := [[[0]], [[0]], [[0]]]

/-- C6 witness: on the batch `[imgW23, imgW31]` (shapes 2×3 and 3×1) the
theorem applies; the maximum height comes from the second image and the
maximum width from the first. -/
theorem C6_max_height_width_independent_witness :
    ([imgW23, imgW31] ≠ []) ∧
    ((∀ img ∈ [imgW23, imgW31],
        img.length ≤ (calculate_max_height_width [imgW23, imgW31]).1 ∧
        imgWidth img ≤ (calculate_max_height_width [imgW23, imgW31]).2) ∧
      (∃ imgH ∈ [imgW23, imgW31],
        imgH.length = (calculate_max_height_width [imgW23, imgW31]).1) ∧
      (∃ imgV ∈ [imgW23, imgW31],
        imgWidth imgV = (calculate_max_height_width [imgW23, imgW31]).2)) :=
  ⟨by decide, C6_max_height_width_independent [imgW23, imgW31] (by decide)⟩

/-! ### C2: annotation parsing -/

theorem pyIndex_spec (l : List String) (x : String) (hx : x ∈ l) :
    ∃ i, pyIndex l x = some i ∧ i < l.length ∧ l.getD i "" = x := by
  induction l with
  | nil => cases hx
  | cons y ys ih =>
    by_cases hyx : y = x
    · exact ⟨0, by simp [pyIndex, hyx], by simp, by simp [List.getD, hyx]⟩
    · have hx' : x ∈ ys := by
        rcases List.mem_cons.mp hx with h | h
        · exact absurd h.symm hyx
        · exact h
      rcases ih hx' with ⟨i, h1, h2, h3⟩
      refine ⟨i + 1, ?_, by simpa using h2, ?_⟩
      · simp [pyIndex, hyx, h1]
      · simpa [List.getD] using h3

/-- The value of the `gt_boxes` loop when every kept class name is in the
vocabulary: the objects whose name is in `classes`, in order, with id the
index of the name in `VOC["classes"]`. -/
def gtSpec (classes : List String) (objs : List VOCObject) : List GTBox :=
  (objs.filter fun o => decide (o.name ∈ classes)).map fun o =>
    { id := (pyIndex VOC_classes o.name).getD 0, name := o.name,
      bbox := [o.xmin, o.ymin, o.xmax, o.ymax] }

theorem handle_gt_boxes_eq (classes : List String) (objs : List VOCObject)
    (h : ∀ o ∈ objs, o.name ∈ classes → o.name ∈ VOC_classes) :
    handle_gt_boxes classes objs = some (gtSpec classes objs) := by
  induction objs with
  | nil => rfl
  | cons o os ih =>
    have ih' := ih fun o' ho' => h o' (List.mem_cons_of_mem o ho')
    by_cases ho : o.name ∈ classes
    · rcases pyIndex_spec VOC_classes o.name (h o (List.mem_cons_self o os) ho)
        with ⟨i, hi, _, _⟩
      simp only [handle_gt_boxes, if_pos ho]
      rw [hi, ih']
      simp [gtSpec, List.filter_cons, ho, hi]
    · simp only [handle_gt_boxes, if_neg ho]
      rw [ih']
      simp [gtSpec, List.filter_cons, ho]

/-- The record the annotation handler returns when all requested classes
are in the vocabulary. -/
def parsedRecord (classes : List String) (xml : VOCXml) : AnnotationData :=
  { filename := xml.filename, width := xml.width, height := xml.height,
    depth := xml.depth, gt_boxes := gtSpec classes xml.objects }

theorem handle_annotation_eq (xml : VOCXml) (classes : List String)
    (hcl : ∀ c ∈ classes, c ∈ VOC_classes) :
    handle_pascal_VOC_annotation xml classes = some (parsedRecord classes xml) := by
  have h := handle_gt_boxes_eq classes xml.objects fun o _ ho => hcl _ ho
  simp only [ handle_pascal_VOC_annotation, h, parsedRecord]

/-- C2: parsing an annotation XML (with the requested classes drawn from
the vocabulary) yields the exact width, height and depth from the XML size
element and exactly the objects whose class name is requested, in order,
each with the XML's xmin/ymin/xmax/ymax integers and with class id the
index of its name in the sorted 20-class vocabulary. -/
theorem C2_annotation_exact_fields (xml : VOCXml) (classes : List String)
    (hcl : ∀ c ∈ classes, c ∈ VOC_classes) :
    ∃ rec, handle_pascal_VOC_annotation xml classes = some rec ∧
      rec.filename = xml.filename ∧ rec.width = xml.width ∧ rec.height = xml.height ∧
      rec.depth = xml.depth ∧
      rec.gt_boxes = (xml.objects.filter fun o => decide (o.name ∈ classes)).map
        (fun o => { id := (pyIndex VOC_classes o.name).getD 0, name := o.name,
                    bbox := [o.xmin, o.ymin, o.xmax, o.ymax] : GTBox }) ∧
      (∀ box ∈ rec.gt_boxes, box.id < VOC_classes.length ∧
        VOC_classes.getD box.id "" = box.name) ∧
      VOC_classes.length = 20 ∧
      List.Pairwise (fun a b => a.data ≤ b.data) VOC_classes := by
  refine ⟨parsedRecord classes xml, handle_annotation_eq xml classes hcl,
    rfl, rfl, rfl, rfl, rfl, ?_, by decide, by decide⟩
  intro box hbox
  simp only [parsedRecord, gtSpec, List.mem_map, List.mem_filter] at hbox
  rcases hbox with ⟨o, ⟨_, hocls⟩, rfl⟩
  have hvoc : o.name ∈ VOC_classes := hcl _ (by simpa using hocls)
  rcases pyIndex_spec VOC_classes o.name hvoc with ⟨i, hi, hlen, hget⟩
  have hget2 : VOC_classes[i] = o.name := by
    rw [← List.getD_eq_getElem VOC_classes "" hlen]
    exact hget
  simp [hi, hlen, hget2]

/-- A concrete annotation XML used by witnesses: three objects, one of
which (`cat`) is excluded by the requested class set. -/
def xmlW : VOCXml :=
  { filename := "000005.jpg", width := 500, height := 375, depth := 3,
    objects := [
      { name := "dog", xmin := 10, ymin := 20, xmax := 100, ymax := 200 },
      { name := "cat", xmin := 1, ymin := 2, xmax := 3, ymax := 4 },
      { name := "person", xmin := 30, ymin := 40, xmax := 50, ymax := 60 }] }

/-- C2 witness: at the concrete XML `xmlW` and requested classes
`["dog", "person"]` the theorem applies and its hypothesis holds. -/
theorem C2_annotation_exact_fields_witness :
    (∀ c ∈ ["dog", "person"], c ∈ VOC_classes) ∧
    (∃ rec, handle_pascal_VOC_annotation xmlW ["dog", "person"] = some rec ∧
      rec.filename = xmlW.filename ∧ rec.width = xmlW.width ∧ rec.height = xmlW.height ∧
      rec.depth = xmlW.depth ∧
      rec.gt_boxes = (xmlW.objects.filter fun o => decide (o.name ∈ ["dog", "person"])).map
        (fun o => { id := (pyIndex VOC_classes o.name).getD 0, name := o.name,
                    bbox := [o.xmin, o.ymin, o.xmax, o.ymax] : GTBox }) ∧
      (∀ box ∈ rec.gt_boxes, box.id < VOC_classes.length ∧
        VOC_classes.getD box.id "" = box.name) ∧
      VOC_classes.length = 20 ∧
      List.Pairwise (fun a b => a.data ≤ b.data) VOC_classes) :=
  ⟨by decide, C2_annotation_exact_fields xmlW ["dog", "person"] (by decide)⟩

/-! ### C1 and C7: the dataset indexer -/

theorem mem_scan_lines (lines : List (String × ℤ)) (acc : List String) (fn : String) :
    fn ∈ scan_lines lines acc ↔
      fn ∈ acc ∨ ∃ flag, (fn, flag) ∈ lines ∧ flag > -1 := by
  induction lines generalizing acc with
  | nil => simp [scan_lines]
  | cons p rest ih =>
    obtain ⟨g, fl⟩ := p
    show fn ∈ scan_lines rest (if fl > -1 ∧ g ∉ acc then acc ++ [g] else acc) ↔ _
    rw [ih]
    by_cases hc : fl > -1 ∧ g ∉ acc
    · rw [if_pos hc]
      simp only [List.mem_append, List.mem_cons, List.not_mem_nil, or_false,
        Prod.mk.injEq]
      constructor
      · rintro ((h | h) | ⟨flag, hmem, hflag⟩)
        · exact Or.inl h
        · exact Or.inr ⟨fl, Or.inl ⟨h, rfl⟩, hc.1⟩
        · exact Or.inr ⟨flag, Or.inr hmem, hflag⟩
      · rintro (h | ⟨flag, (⟨h1, h2⟩ | hmem), hflag⟩)
        · exact Or.inl (Or.inl h)
        · exact Or.inl (Or.inr h1)
        · exact Or.inr ⟨flag, hmem, hflag⟩
    · rw [if_neg hc]
      push_neg at hc
      simp only [List.mem_cons, Prod.mk.injEq]
      constructor
      · rintro (h | ⟨flag, hmem, hflag⟩)
        · exact Or.inl h
        · exact Or.inr ⟨flag, Or.inr hmem, hflag⟩
      · rintro (h | ⟨flag, (⟨h1, h2⟩ | hmem), hflag⟩)
        · exact Or.inl h
        · subst h1; subst h2; exact Or.inl (hc hflag)
        · exact Or.inr ⟨flag, hmem, hflag⟩

theorem nodup_scan_lines (lines : List (String × ℤ)) (acc : List String)
    (hacc : acc.Nodup) : (scan_lines lines acc).Nodup := by
  induction lines generalizing acc with
  | nil => exact hacc
  | cons p rest ih =>
    obtain ⟨g, fl⟩ := p
    show (scan_lines rest (if fl > -1 ∧ g ∉ acc then acc ++ [g] else acc)).Nodup
    by_cases hc : fl > -1 ∧ g ∉ acc
    · rw [if_pos hc]
      apply ih
      simp [List.nodup_append, hacc, hc.2]
    · rw [if_neg hc]; exact ih _ hacc

theorem mem_collected (datatype : String) (lf : String → List (String × ℤ))
    (cls : List String) (acc : List String) (fn : String) :
    fn ∈ collected datatype lf cls acc ↔
      fn ∈ acc ∨ ∃ c ∈ cls, ∃ flag, (fn, flag) ∈ lf (listFilePath c datatype) ∧ flag > -1 := by
  induction cls generalizing acc with
  | nil => simp [collected]
  | cons c cs ih =>
    show fn ∈ collected datatype lf cs (scan_lines (lf (listFilePath c datatype)) acc) ↔ _
    rw [ih, mem_scan_lines]
    simp only [List.mem_cons]
    constructor
    · rintro ((h | ⟨flag, hm, hf⟩) | ⟨c', hc', flag, hm, hf⟩)
      · exact Or.inl h
      · exact Or.inr ⟨c, Or.inl rfl, flag, hm, hf⟩
      · exact Or.inr ⟨c', Or.inr hc', flag, hm, hf⟩
    · rintro (h | ⟨c', (rfl | hc'), flag, hm, hf⟩)
      · exact Or.inl (Or.inl h)
      · exact Or.inl (Or.inr ⟨flag, hm, hf⟩)
      · exact Or.inr ⟨c', hc', flag, hm, hf⟩

theorem nodup_collected (datatype : String) (lf : String → List (String × ℤ))
    (cls : List String) (acc : List String) (hacc : acc.Nodup) :
    (collected datatype lf cls acc).Nodup := by
  induction cls generalizing acc with
  | nil => exact hacc
  | cons c cs ih =>
    show (collected datatype lf cs (scan_lines (lf (listFilePath c datatype)) acc)).Nodup
    exact ih _ (nodup_scan_lines _ _ hacc)

theorem collect_filenames_eq_ok (datatype : String) (lf : String → List (String × ℤ))
    (cls : List String) (acc : List String) (hcl : ∀ c ∈ cls, c ∈ VOC_classes) :
    collect_filenames datatype lf cls acc = Except.ok (collected datatype lf cls acc) := by
  induction cls generalizing acc with
  | nil => rfl
  | cons c cs ih =>
    show (if c ∈ VOC_classes then
        collect_filenames datatype lf cs (scan_lines (lf (listFilePath c datatype)) acc)
      else Except.error VOCError.assertionError) = _
    rw [if_pos (hcl c (List.mem_cons_self c cs))]
    exact ih _ fun c' hc' => hcl c' (List.mem_cons_of_mem c hc')

theorem collect_filenames_eq_error (datatype : String) (lf : String → List (String × ℤ))
    (cls : List String) (acc : List String) :
    (∃ c ∈ cls, c ∉ VOC_classes) →
    collect_filenames datatype lf cls acc = Except.error VOCError.assertionError := by
  induction cls generalizing acc with
  | nil => rintro ⟨c, hc, _⟩; cases hc
  | cons c cs ih =>
    rintro ⟨c', hc', hbad⟩
    show (if c ∈ VOC_classes then
        collect_filenames datatype lf cs (scan_lines (lf (listFilePath c datatype)) acc)
      else Except.error VOCError.assertionError) = _
    by_cases hc : c ∈ VOC_classes
    · rw [if_pos hc]
      apply ih
      rcases List.mem_cons.mp hc' with rfl | h
      · exact absurd hc hbad
      · exact ⟨c', h, hbad⟩
    · rw [if_neg hc]

/-- The dataset entry built for one collected filename (all class
assertions passing). -/
def datasetEntryFor (classes : List String) (annots : String → VOCXml) (fn : String) :
    DatasetEntry :=
  let d := parsedRecord classes (annots (pathJoin VOC_annotations_path (fn ++ ".xml")))
  { data := d, image_path := pathJoin VOC_images_path d.filename }

theorem build_dataset_eq_ok (classes : List String) (annots : String → VOCXml)
    (fns : List String) (hcl : ∀ c ∈ classes, c ∈ VOC_classes) :
    build_dataset classes annots fns =
      Except.ok (fns.map (datasetEntryFor classes annots)) := by
  induction fns with
  | nil => rfl
  | cons fn rest ih =>
    simp only [build_dataset]
    rw [handle_annotation_eq _ _ hcl, ih]
    rfl

/-- C1: with a recognized split and recognized classes, the indexer
succeeds and returns exactly one record per distinct filename appearing
with a non-negative difficulty flag in at least one requested class's
list file; the collected filename list has no duplicates, and the k-th
record is the parsed annotation of the k-th collected filename with its
resolved image path. -/
theorem C1_indexer_distinct_qualifying_filenames (datatype : String)
    (classes : List String) (lf : String → List (String × ℤ)) (annots : String → VOCXml)
    (hdt : datatype ∈ VOC_datatypes) (hcl : ∀ c ∈ classes, c ∈ VOC_classes) :
    ∃ ds, get_pascal_VOC_data datatype classes lf annots = Except.ok ds ∧
      (collected datatype lf classes []).Nodup ∧
      (∀ fn, fn ∈ collected datatype lf classes [] ↔
        ∃ c ∈ classes, ∃ flag, (fn, flag) ∈ lf (listFilePath c datatype) ∧ flag > -1) ∧
      ds = (collected datatype lf classes []).map (datasetEntryFor classes annots) := by
  refine ⟨_, ?_, nodup_collected _ _ _ _ List.nodup_nil, fun fn => ?_, rfl⟩
  · unfold get_pascal_VOC_data
    rw [if_pos hdt, collect_filenames_eq_ok _ _ _ _ hcl]
    exact build_dataset_eq_ok _ _ _ hcl
  · rw [mem_collected]
    simp

/-- A concrete list-file environment for witnesses: the `dog_train` list
holds `000005` (difficult flag 1), `000007` (flag -1, skipped) and a
duplicate `000005` (flag 0). -/
def lfW : String → List (String × ℤ) := fun path =>
  if path = listFilePath "dog" "train" then [("000005", 1), ("000007", -1), ("000005", 0)]
  else []

/-- A concrete annotation environment for witnesses: every annotation
path parses to `xmlW`. -/
def annotsW : String → VOCXml := fun _ => xmlW

/-- C1 witness: at split `train`, classes `["dog"]` and the concrete
environments the theorem applies and its hypotheses hold. -/
theorem C1_indexer_distinct_qualifying_filenames_witness :
    ("train" ∈ VOC_datatypes) ∧ (∀ c ∈ ["dog"], c ∈ VOC_classes) ∧
    (∃ ds, get_pascal_VOC_data "train" ["dog"] lfW annotsW = Except.ok ds ∧
      (collected "train" lfW ["dog"] []).Nodup ∧
      (∀ fn, fn ∈ collected "train" lfW ["dog"] [] ↔
        ∃ c ∈ ["dog"], ∃ flag, (fn, flag) ∈ lfW (listFilePath c "train") ∧ flag > -1) ∧
      ds = (collected "train" lfW ["dog"] []).map (datasetEntryFor ["dog"] annotsW)) :=
  ⟨by decide, by decide,
    C1_indexer_distinct_qualifying_filenames "train" ["dog"] lfW annotsW
      (by decide) (by decide)⟩

/-- C7: the indexer fails with an assertion failure exactly when the split
name is not a recognized datatype or some requested class name is outside
the 20-class vocabulary, and succeeds past these checks otherwise. -/
theorem C7_assert_split_and_classes (datatype : String) (classes : List String)
    (lf : String → List (String × ℤ)) (annots : String → VOCXml) :
    (get_pascal_VOC_data datatype classes lf annots = Except.error VOCError.assertionError ↔
      datatype ∉ VOC_datatypes ∨ ∃ c ∈ classes, c ∉ VOC_classes) ∧
    ((∃ ds, get_pascal_VOC_data datatype classes lf annots = Except.ok ds) ↔
      datatype ∈ VOC_datatypes ∧ ∀ c ∈ classes, c ∈ VOC_classes) := by
  by_cases hdt : datatype ∈ VOC_datatypes
  · by_cases hcl : ∀ c ∈ classes, c ∈ VOC_classes
    · have hok : get_pascal_VOC_data datatype classes lf annots =
          Except.ok ((collected datatype lf classes []).map (datasetEntryFor classes annots)) := by
        unfold get_pascal_VOC_data
        rw [if_pos hdt, collect_filenames_eq_ok _ _ _ _ hcl]
        exact build_dataset_eq_ok _ _ _ hcl
      rw [hok]
      constructor
      · constructor
        · intro h; exact Except.noConfusion h
        · rintro (h | ⟨c, hc, hbad⟩)
          · exact absurd hdt h
          · exact absurd (hcl c hc) hbad
      · exact ⟨fun _ => ⟨hdt, hcl⟩, fun _ => ⟨_, rfl⟩⟩
    · have hbad : ∃ c ∈ classes, c ∉ VOC_classes := by push_neg at hcl; exact hcl
      have herr : get_pascal_VOC_data datatype classes lf annots =
          Except.error VOCError.assertionError := by
        unfold get_pascal_VOC_data
        rw [if_pos hdt, collect_filenames_eq_error _ _ _ _ hbad]
      rw [herr]
      constructor
      · exact ⟨fun _ => Or.inr hbad, fun _ => rfl⟩
      · constructor
        · rintro ⟨ds, h⟩; exact Except.noConfusion h
        · rintro ⟨_, hcl'⟩
          rcases hbad with ⟨c, hc, hb⟩
          exact absurd (hcl' c hc) hb
  · have herr : get_pascal_VOC_data datatype classes lf annots =
        Except.error VOCError.assertionError := by
      unfold get_pascal_VOC_data
      rw [if_neg hdt]
    rw [herr]
    constructor
    · exact ⟨fun _ => Or.inl hdt, fun _ => rfl⟩
    · constructor
      · rintro ⟨ds, h⟩; exact Except.noConfusion h
      · rintro ⟨h1, _⟩; exact absurd h1 hdt

/-! ### C4 and C10: canvas padding -/

theorem getD_replicate (n i : ℕ) (a d : Pixel) (h : i < n) :
    (List.replicate n a).getD i d = a := by
  have h' : i < (List.replicate n a).length := by simpa using h
  rw [List.getD_eq_getElem _ _ h']
  exact List.getElem_replicate a h'

theorem getD_replicate_row (n i : ℕ) (a d : List Pixel) (h : i < n) :
    (List.replicate n a).getD i d = a := by
  have h' : i < (List.replicate n a).length := by simpa using h
  rw [List.getD_eq_getElem _ _ h']
  exact List.getElem_replicate a h'

theorem np_pad_length (img : ImageArray) (t b l r w c : ℕ) :
    (np_pad img t b l r w c).length = t + img.length + b := by
  simp [np_pad, blankRows]
  omega

theorem np_pad_getD_top (img : ImageArray) (t b l r w c y : ℕ) (hy : y < t) :
    (np_pad img t b l r w c).getD y [] =
      List.replicate (l + w + r) (zeroPixel c) := by
  unfold np_pad blankRows
  rw [List.append_assoc]
  rw [List.getD_append _ _ _ _ (by simpa using hy)]
  exact getD_replicate_row _ _ _ _ hy

theorem np_pad_getD_mid (img : ImageArray) (t b l r w c i : ℕ) (hi : i < img.length) :
    (np_pad img t b l r w c).getD (t + i) [] = padRowLR l r c (img.getD i []) := by
  unfold np_pad blankRows
  rw [List.append_assoc]
  rw [List.getD_append_right _ _ _ _ (by simp)]
  have h1 : t + i - (List.replicate t (List.replicate (l + w + r) (zeroPixel c))).length = i := by
    simp
  rw [h1]
  rw [List.getD_append _ _ _ _ (by simpa using hi)]
  have hi' : i < (img.map (padRowLR l r c)).length := by simpa using hi
  rw [List.getD_eq_getElem _ _ hi', List.getElem_map, List.getD_eq_getElem _ _ hi]

theorem np_pad_getD_bottom (img : ImageArray) (t b l r w c y : ℕ)
    (hy1 : t + img.length ≤ y) (hy2 : y < t + img.length + b) :
    (np_pad img t b l r w c).getD y [] =
      List.replicate (l + w + r) (zeroPixel c) := by
  unfold np_pad blankRows
  rw [List.append_assoc]
  rw [List.getD_append_right _ _ _ _ (by simp; omega)]
  rw [List.getD_append_right _ _ _ _ (by simp; omega)]
  apply getD_replicate_row
  simp
  omega

theorem padRowLR_getD_left (row : List Pixel) (l r c x : ℕ) (hx : x < l) :
    (padRowLR l r c row).getD x [] = zeroPixel c := by
  unfold padRowLR
  rw [List.append_assoc]
  rw [List.getD_append _ _ _ _ (by simpa using hx)]
  exact getD_replicate _ _ _ _ hx

theorem padRowLR_getD_mid (row : List Pixel) (l r c j : ℕ) (hj : j < row.length) :
    (padRowLR l r c row).getD (l + j) [] = row.getD j [] := by
  unfold padRowLR
  rw [List.append_assoc]
  rw [List.getD_append_right _ _ _ _ (by simp)]
  have h1 : l + j - (List.replicate l (zeroPixel c)).length = j := by simp
  rw [h1]
  rw [List.getD_append _ _ _ _ hj]

theorem padRowLR_getD_right (row : List Pixel) (l r c x : ℕ) (hrow : l + row.length ≤ x)
    (hx : x < l + row.length + r) :
    (padRowLR l r c row).getD x [] = zeroPixel c := by
  unfold padRowLR
  rw [List.append_assoc]
  rw [List.getD_append_right _ _ _ _ (by simp; omega)]
  rw [List.getD_append_right _ _ _ _ (by simp; omega)]
  apply getD_replicate
  simp
  omega

theorem crop_np_pad (img : ImageArray) (t b l r w c : ℕ)
    (hrows : ∀ row ∈ img, row.length = w) :
    crop_img (np_pad img t b l r w c) t l img.length w = img := by
  unfold crop_img np_pad blankRows
  rw [List.append_assoc]
  rw [List.drop_left'
    (by simp : (List.replicate t (List.replicate (l + w + r) (zeroPixel c))).length = t)]
  rw [List.take_left' (by simp : (img.map (padRowLR l r c)).length = img.length)]
  rw [List.map_map]
  have h3 : ∀ row ∈ img, ((fun row => (row.drop l).take w) ∘ padRowLR l r c) row = row := by
    intro row hrow
    simp only [Function.comp_apply, padRowLR]
    rw [List.append_assoc]
    rw [List.drop_left' (by simp : (List.replicate l (zeroPixel c)).length = l)]
    rw [List.take_left' (hrows row hrow)]
  rw [List.map_congr_left h3]
  simp

theorem get_padded_img_eq_some (img : ImageArray) (h w c maxH maxW : ℕ)
    (hwf : WellFormedImg img h w c) (hh : h ≤ maxH) (hw : w ≤ maxW) :
    get_padded_img img maxH maxW =
      some (np_pad img ((maxH - h) / 2) (maxH - h - (maxH - h) / 2)
              ((maxW - w) / 2) (maxW - w - (maxW - w) / 2) w c,
        { top := (maxH - h) / 2, bottom := maxH - h - (maxH - h) / 2,
          left := (maxW - w) / 2, right := maxW - w - (maxW - w) / 2 }) := by
  obtain ⟨hlen, hwidth, hch, _⟩ := hwf
  unfold get_padded_img
  rw [hlen, hwidth, hch, if_pos ⟨hh, hw⟩]

/-- C10: `get_padded_img` fails its assertions exactly when the image does
not fit the target canvas; when it fits, the padded array has shape
exactly `(max_height, max_width, channels)` and the padding record splits
the slack near-symmetrically: top+bottom and left+right equal the height
and width slack, with each pair differing by at most one. -/
theorem C10_padded_shape_and_split (img : ImageArray) (h w c maxH maxW : ℕ)
    (hwf : WellFormedImg img h w c) :
    (get_padded_img img maxH maxW = none ↔ ¬(h ≤ maxH ∧ w ≤ maxW)) ∧
    (h ≤ maxH → w ≤ maxW →
      ∃ P pad, get_padded_img img maxH maxW = some (P, pad) ∧
        P.length = maxH ∧
        (∀ row ∈ P, row.length = maxW ∧ ∀ px ∈ row, px.length = c) ∧
        pad.top + pad.bottom = maxH - h ∧ pad.left + pad.right = maxW - w ∧
        pad.top ≤ pad.bottom ∧ pad.bottom ≤ pad.top + 1 ∧
        pad.left ≤ pad.right ∧ pad.right ≤ pad.left + 1) := by
  obtain ⟨hlen, hwidth, hch, hrows⟩ := hwf
  constructor
  · unfold get_padded_img
    rw [hlen, hwidth, hch]
    by_cases hcond : h ≤ maxH ∧ w ≤ maxW
    · rw [if_pos hcond]; simp [hcond]
    · rw [if_neg hcond]; simp [hcond]
  · intro hh hw
    refine ⟨_, _, get_padded_img_eq_some img h w c maxH maxW ⟨hlen, hwidth, hch, hrows⟩ hh hw,
      ?_, ?_, by dsimp only; omega, by dsimp only; omega, by dsimp only; omega,
      by dsimp only; omega, by dsimp only; omega, by dsimp only; omega⟩
    · rw [np_pad_length, hlen]; omega
    · intro row hrow
      unfold np_pad blankRows at hrow
      have hW : ((maxW - w) / 2) + w + (maxW - w - (maxW - w) / 2) = maxW := by omega
      rcases List.mem_append.mp hrow with hrow' | hrow'
      · rcases List.mem_append.mp hrow' with hrep | hmap
        · have := List.eq_of_mem_replicate hrep
          subst this
          constructor
          · simp [hW]
          · intro px hpx
            have := List.eq_of_mem_replicate hpx
            subst this
            simp [zeroPixel]
        · rcases List.mem_map.mp hmap with ⟨row0, hrow0, rfl⟩
          have hr0 := hrows row0 hrow0
          constructor
          · simp [padRowLR, hr0.1]; omega
          · intro px hpx
            unfold padRowLR at hpx
            rcases List.mem_append.mp hpx with hpx' | hpx'
            · rcases List.mem_append.mp hpx' with hz | hp
              · have := List.eq_of_mem_replicate hz
                subst this; simp [zeroPixel]
              · exact hr0.2 px hp
            · have := List.eq_of_mem_replicate hpx'
              subst this; simp [zeroPixel]
      · have := List.eq_of_mem_replicate hrow'
        subst this
        constructor
        · simp [hW]
        · intro px hpx
          have := List.eq_of_mem_replicate hpx
          subst this
          simp [zeroPixel]

/-- A concrete 2-row, 2-column, 1-channel image used by witnesses. -/
def imgA : ImageArray := [[[1], [2]], [[3], [4]]]

/-- C10 witness: padding `imgA` (shape 2×2×1) to a 3×4 canvas; the
theorem applies and its hypotheses hold. -/
theorem C10_padded_shape_and_split_witness :
    WellFormedImg imgA 2 2 1 ∧ 2 ≤ 3 ∧ 2 ≤ 4 ∧
    (∃ P pad, get_padded_img imgA 3 4 = some (P, pad) ∧
      P.length = 3 ∧
      (∀ row ∈ P, row.length = 4 ∧ ∀ px ∈ row, px.length = 1) ∧
      pad.top + pad.bottom = 3 - 2 ∧ pad.left + pad.right = 4 - 2 ∧
      pad.top ≤ pad.bottom ∧ pad.bottom ≤ pad.top + 1 ∧
      pad.left ≤ pad.right ∧ pad.right ≤ pad.left + 1) :=
  ⟨by decide, by decide, by decide,
    (C10_padded_shape_and_split imgA 2 2 1 3 4 (by decide)).2 (by decide) (by decide)⟩

/-- C4: under the assertions, padding preserves every original pixel at
the computed top/left offset, fills every other in-canvas position with
the zero pixel, and cropping the padded array at that offset recovers the
original array exactly. -/
theorem C4_pad_preserve_zero_roundtrip (img : ImageArray) (h w c maxH maxW : ℕ)
    (hwf : WellFormedImg img h w c) (hh : h ≤ maxH) (hw : w ≤ maxW) :
    ∃ P pad, get_padded_img img maxH maxW = some (P, pad) ∧
      (∀ i j, i < h → j < w →
        (P.getD (pad.top + i) []).getD (pad.left + j) [] = (img.getD i []).getD j []) ∧
      (∀ y x, y < maxH → x < maxW →
        (y < pad.top ∨ pad.top + h ≤ y ∨ x < pad.left ∨ pad.left + w ≤ x) →
        (P.getD y []).getD x [] = zeroPixel c) ∧
      crop_img P pad.top pad.left h w = img := by
  obtain ⟨hlen, hwidth, hch, hrows⟩ := hwf
  set t := (maxH - h) / 2 with ht
  set bo := maxH - h - (maxH - h) / 2 with hbo
  set l := (maxW - w) / 2 with hl
  set rr := maxW - w - (maxW - w) / 2 with hrr
  refine ⟨np_pad img t bo l rr w c, { top := t, bottom := bo, left := l, right := rr },
    get_padded_img_eq_some img h w c maxH maxW ⟨hlen, hwidth, hch, hrows⟩ hh hw, ?_, ?_, ?_⟩
  · dsimp only
    intro i j hi hj
    rw [np_pad_getD_mid img t bo l rr w c i (by omega)]
    have hrow : img.getD i [] ∈ img := by
      have hi' : i < img.length := by omega
      rw [List.getD_eq_getElem _ _ hi']
      exact List.getElem_mem hi'
    have hlen0 : (img.getD i []).length = w := (hrows _ hrow).1
    exact padRowLR_getD_mid _ _ _ _ _ (by omega)
  · dsimp only
    intro y x hy hx hcase
    by_cases hytop : y < t
    · rw [np_pad_getD_top img t bo l rr w c y hytop]
      exact getD_replicate _ _ _ _ (by omega)
    · by_cases hybot : t + h ≤ y
      · rw [np_pad_getD_bottom img t bo l rr w c y (by omega) (by omega)]
        exact getD_replicate _ _ _ _ (by omega)
      · have hyi : y = t + (y - t) := by omega
        have hi : y - t < img.length := by omega
        rw [hyi, np_pad_getD_mid img t bo l rr w c (y - t) hi]
        have hrow : img.getD (y - t) [] ∈ img := by
          rw [List.getD_eq_getElem _ _ hi]
          exact List.getElem_mem hi
        have hlen0 : (img.getD (y - t) []).length = w := (hrows _ hrow).1
        rcases hcase with hc | hc | hc | hc
        · omega
        · omega
        · exact padRowLR_getD_left _ _ _ _ _ hc
        · exact padRowLR_getD_right _ _ _ _ _ (by omega) (by omega)
  · dsimp only
    have := crop_np_pad img t bo l rr w c fun row hrow => (hrows row hrow).1
    rw [← hlen]
    exact this

/-- C4 witness: padding `imgA` (shape 2×2×1) to a 3×4 canvas; the theorem
applies and its hypotheses hold. -/
theorem C4_pad_preserve_zero_roundtrip_witness :
    WellFormedImg imgA 2 2 1 ∧ 2 ≤ 3 ∧ 2 ≤ 4 ∧
    (∃ P pad, get_padded_img imgA 3 4 = some (P, pad) ∧
      (∀ i j, i < 2 → j < 2 →
        (P.getD (pad.top + i) []).getD (pad.left + j) [] = (imgA.getD i []).getD j []) ∧
      (∀ y x, y < 3 → x < 4 →
        (y < pad.top ∨ pad.top + 2 ≤ y ∨ x < pad.left ∨ pad.left + 2 ≤ x) →
        (P.getD y []).getD x [] = zeroPixel 1) ∧
      crop_img P pad.top pad.left 2 2 = imgA) :=
  ⟨by decide, by decide, by decide,
    C4_pad_preserve_zero_roundtrip imgA 2 2 1 3 4 (by decide) (by decide) (by decide)⟩
